import Mathlib

/-!
Verification of the `rere` redaction library (package `rere`, file `rere.go`).

The Go source is shallowly embedded: reflective Go values become the
inductive type `Val`, whose constructors mirror the `reflect.Kind`s that
`redact` dispatches on (String, Slice/Array of uint8, other Slice/Array,
Pointer, Interface, Map, Struct, and the opaque kinds that are never
touched).  The in-place mutation of `redact` becomes a function returning
the mutated value; the reflect panics that `redact` can run into become
an `Except` error.
-/

namespace Rere

/-- The modes of `redact`: `allow` / `deny` from `rere.go`. -/
inductive RedactMode where
  | allow
  | deny
deriving DecidableEq, Repr

/-- Constant `redactedMessage = "REDACTED"` from `rere.go`. -/
def redactedMessage : String := "REDACTED"

/-- Bytes `[]byte(redactedMessage)`: the byte encoding of the sentinel. -/
def redactedBytes : List Nat := redactedMessage.toList.map Char.toNat

/-- Model of Go `strings.EqualFold` restricted to ASCII inputs, where
the Go simple Unicode case folding coincides with ASCII case folding:
both strings are folded character by character (`Char.toLower` lowers
exactly `'A'..'Z'`) and compared. -/
def goEqualFold (s t : String) : Bool :=
  s.toList.map Char.toLower == t.toList.map Char.toLower

/-- A Go map key as seen by `redact`.  `redact` renders every key with
`reflect.Value.String()`: a String-kind key renders as itself, any other
kind renders as the placeholder `"<T Value>"` where `T` is the type of the key
(`reflect.Value.stringNonString`). -/
inductive MapKey where
  | str : String → MapKey
  | nonString : String → MapKey
deriving DecidableEq, Repr

/-- Rendering `reflect.Value.String()` as used on map keys in `redact`. -/
def MapKey.render : MapKey → String
  | .str s => s
  | .nonString t => "<" ++ t ++ " Value>"

/-- A reflective Go value, one constructor per `reflect.Kind` group that
`redact` distinguishes.  `bytes` is a `[]byte` (Slice of Uint8),
`byteArr` an `[N]byte` (Array of Uint8), `slice`/`arr` are Slice/Array
with non-Uint8 element kind, `ptr` a Pointer (possibly nil), `iface` an
Interface (possibly nil), `mp` a Map with textual rendering of its keys,
`strct` a Struct with named fields (exported or not), and `prim`
stands for every kind `redact` leaves alone (Bool, Int*, Uint*, Float*,
Complex*, Chan, Func, Uintptr, UnsafePointer, Invalid). -/
inductive Val where
  | str : String → Val
  | bytes : List Nat → Val
  | byteArr : List Nat → Val
  | slice : List Val → Val
  | arr : List Val → Val
  | ptr : Option Val → Val
  | iface : Option Val → Val
  | mp : List (MapKey × Val) → Val
  | strct : List (String × Val) → Val
  | prim : Val
deriving Repr

/-- The reflect panics the traversal can run into:
`invalidValue` models `reflect.Value.Type` being called on the zero
`Value` (nil interface in the Interface case of `redact`);
`setNotAssignable` models `reflect.Value.Set` being handed a `[]byte`
for a byte-array location. -/
inductive GoPanic where
  | invalidValue
  | setNotAssignable
deriving DecidableEq, Repr

/-- Field classification of the Struct case in `redact`:
`isStringType || isByteSliceType`, i.e. the own kind of the field is String,
or Slice with Uint8 element kind.  (An Array of Uint8 — `byteArr` — is
deliberately NOT included, exactly as in the source, where
`isByteSliceType` tests `reflect.Slice` only.) -/
def isLeafKind : Val → Bool
  | .str _ => true
  | .bytes _ => true
  | _ => false

/-- Predicate `slices.ContainsFunc(fieldKeyNameList, matchFn)` from `redact`,
where `matchFn` compares with `strings.EqualFold` against the name. -/
def nameInList (fieldKeyNameList : List String) (name : String) : Bool :=
  fieldKeyNameList.any fun e => goEqualFold e name

/-- The skip condition of the Map and Struct cases in `redact`:
`inAllowList || notInDenyList`. -/
def skipName (mode : RedactMode) (fieldKeyNameList : List String)
    (name : String) : Bool :=
  (mode == .allow && nameInList fieldKeyNameList name) ||
    (mode == .deny && !nameInList fieldKeyNameList name)

mutual

/-- The recursive `redact` of `rere.go` (the current, case-insensitive
version).  The initial `for Kind == Pointer` dereferencing loop is the
`ptr` case; a nil pointer leaves an Invalid value, which falls into the
do-nothing case.  In the Array/Slice case a Uint8 element kind is
redacted wholesale (`Set` of `[]byte(redactedMessage)`) — which panics
for an Array kind, since `[]uint8` is not assignable to `[N]uint8`;
other element kinds are recursed per element.  The Interface case
unwraps the dynamic value (panicking on a nil interface, where
`element.Type()` is called on the zero `Value`).  The Map case skips a
whole entry when `skipName` holds for the rendered key, else recurses on
the entry value.  The String case redacts non-empty strings.  The
Struct case consults `skipName` only for fields whose own kind is
String or Slice-of-Uint8, and recurses into every non-skipped field. -/
def redact (mode : RedactMode) (fieldKeyNameList : List String) :
    Val → Except GoPanic Val
  | .ptr none => .ok (.ptr none)
  | .ptr (some v) => do
      let v' ← redact mode fieldKeyNameList v
      .ok (.ptr (some v'))
  | .bytes bs => .ok (.bytes (if bs.length ≠ 0 then redactedBytes else bs))
  | .byteArr bs =>
      if bs.length ≠ 0 then .error .setNotAssignable else .ok (.byteArr bs)
  | .slice vs => do
      let vs' ← redactList mode fieldKeyNameList vs
      .ok (.slice vs')
  | .arr vs => do
      let vs' ← redactList mode fieldKeyNameList vs
      .ok (.arr vs')
  | .iface none => .error .invalidValue
  | .iface (some v) => do
      let v' ← redact mode fieldKeyNameList v
      .ok (.iface (some v'))
  | .mp entries => do
      let entries' ← redactEntries mode fieldKeyNameList entries
      .ok (.mp entries')
  | .str s => .ok (.str (if s ≠ "" then redactedMessage else s))
  | .strct fields => do
      let fields' ← redactFields mode fieldKeyNameList fields
      .ok (.strct fields')
  | .prim => .ok .prim

/-- Element loop of the Array/Slice case. -/
def redactList (mode : RedactMode) (fieldKeyNameList : List String) :
    List Val → Except GoPanic (List Val)
  | [] => .ok []
  | v :: vs => do
      let v' ← redact mode fieldKeyNameList v
      let vs' ← redactList mode fieldKeyNameList vs
      .ok (v' :: vs')

/-- Key loop of the Map case: a key matching the skip condition leaves
its whole entry untouched (`continue`). -/
def redactEntries (mode : RedactMode) (fieldKeyNameList : List String) :
    List (MapKey × Val) → Except GoPanic (List (MapKey × Val))
  | [] => .ok []
  | (k, v) :: rest =>
      if skipName mode fieldKeyNameList k.render then do
        let rest' ← redactEntries mode fieldKeyNameList rest
        .ok ((k, v) :: rest')
      else do
        let v' ← redact mode fieldKeyNameList v
        let rest' ← redactEntries mode fieldKeyNameList rest
        .ok ((k, v') :: rest')

/-- Field loop of the Struct case: the skip condition is consulted only
when the own kind of the field is String or Slice-of-Uint8
(`isStringType || isByteSliceType`); every other field is recursed
unconditionally. -/
def redactFields (mode : RedactMode) (fieldKeyNameList : List String) :
    List (String × Val) → Except GoPanic (List (String × Val))
  | [] => .ok []
  | (n, v) :: rest =>
      if isLeafKind v && skipName mode fieldKeyNameList n then do
        let rest' ← redactFields mode fieldKeyNameList rest
        .ok ((n, v) :: rest')
      else do
        let v' ← redact mode fieldKeyNameList v
        let rest' ← redactFields mode fieldKeyNameList rest
        .ok ((n, v') :: rest')

end

/-- The external deep-copy collaborator `reprint.This`, whose contract
(spec §4.1) is a structurally identical, storage-independent clone; in
this pure value model a clone is the value itself.  (Storage independence
is treated separately, in the heap model below.) -/
def reprintThis (v : Val) : Val := v

/-- Function `RedactWithAllowList` from `rere.go`: deep copy, then run `redact`
in allow mode.  (`redact` is handed `reflect.ValueOf(&deepCopy)`; the
leading pointer is stripped by the dereferencing loop of `redact`, see
`redact_ptr_some`.) -/
def RedactWithAllowList (value : Val) (allowList : List String) :
    Except GoPanic Val :=
  redact .allow allowList (reprintThis value)

/-- Function `RedactWithDenyList` from `rere.go`: deep copy, then run `redact`
in deny mode. -/
def RedactWithDenyList (value : Val) (denyList : List String) :
    Except GoPanic Val :=
  redact .deny denyList (reprintThis value)

/-- Sanity: the `&deepCopy` wrapper handed to `redact` is transparent —
redacting through one pointer level is redacting the target. -/
theorem redact_ptr_some (mode : RedactMode) (L : List String) (v : Val) :
    redact mode L (.ptr (some v)) =
      (redact mode L v).map fun v' => .ptr (some v') := by
  rw [redact]
  cases redact mode L v <;> rfl

/-! ### Basic unfolding lemmas for the traversal -/

theorem redact_str (mode : RedactMode) (L : List String) (s : String) :
    redact mode L (.str s) =
      .ok (.str (if s ≠ "" then redactedMessage else s)) := by
  rw [redact]

theorem redact_bytes (mode : RedactMode) (L : List String) (bs : List Nat) :
    redact mode L (.bytes bs) =
      .ok (.bytes (if bs.length ≠ 0 then redactedBytes else bs)) := by
  rw [redact]

theorem redact_byteArr (mode : RedactMode) (L : List String) (bs : List Nat) :
    redact mode L (.byteArr bs) =
      if bs.length ≠ 0 then .error .setNotAssignable else .ok (.byteArr bs) := by
  rw [redact]

theorem redact_ptr_none (mode : RedactMode) (L : List String) :
    redact mode L (.ptr none) = .ok (.ptr none) := by
  rw [redact]

theorem redact_iface_none (mode : RedactMode) (L : List String) :
    redact mode L (.iface none) = .error .invalidValue := by
  rw [redact]

theorem redact_prim (mode : RedactMode) (L : List String) :
    redact mode L .prim = .ok .prim := by
  rw [redact]

/-- Characterization of the Struct field loop on a block of fields whose
values are all string leaves: each field keeps its name, a skipped name
keeps its value, and any other non-empty value becomes the sentinel. -/
theorem redactFields_strLeaves (mode : RedactMode) (L : List String)
    (flds : List (String × String)) :
    redactFields mode L (flds.map fun p => (p.1, Val.str p.2)) =
      .ok (flds.map fun p =>
        (p.1, Val.str (if skipName mode L p.1 then p.2
          else if p.2 ≠ "" then redactedMessage else p.2))) := by
  induction flds with
  | nil => rw [show (([] : List (String × String)).map
      fun p => (p.1, Val.str p.2)) = [] from rfl, redactFields]; rfl
  | cons p rest ih =>
      simp only [List.map_cons]
      rw [redactFields, ih]
      by_cases h : skipName mode L p.1 <;>
        simp [isLeafKind, h, redact_str, bind, Except.bind]

/-- Characterization of the Map key loop on a block of entries whose
values are all string leaves. -/
theorem redactEntries_strLeaves (mode : RedactMode) (L : List String)
    (entries : List (MapKey × String)) :
    redactEntries mode L (entries.map fun p => (p.1, Val.str p.2)) =
      .ok (entries.map fun p =>
        (p.1, Val.str (if skipName mode L p.1.render then p.2
          else if p.2 ≠ "" then redactedMessage else p.2))) := by
  induction entries with
  | nil => rw [show (([] : List (MapKey × String)).map
      fun p => (p.1, Val.str p.2)) = [] from rfl, redactEntries]; rfl
  | cons p rest ih =>
      simp only [List.map_cons]
      rw [redactEntries, ih]
      by_cases h : skipName mode L p.1.render <;>
        simp [h, redact_str, bind, Except.bind]

/-- A struct all of whose fields hold string leaves is redacted
fieldwise. -/
theorem redact_strct_strLeaves (mode : RedactMode) (L : List String)
    (flds : List (String × String)) :
    redact mode L (.strct (flds.map fun p => (p.1, Val.str p.2))) =
      .ok (.strct (flds.map fun p =>
        (p.1, Val.str (if skipName mode L p.1 then p.2
          else if p.2 ≠ "" then redactedMessage else p.2)))) := by
  rw [redact, redactFields_strLeaves]
  rfl

/-- A map all of whose entries hold string leaves is redacted
entrywise. -/
theorem redact_mp_strLeaves (mode : RedactMode) (L : List String)
    (entries : List (MapKey × String)) :
    redact mode L (.mp (entries.map fun p => (p.1, Val.str p.2))) =
      .ok (.mp (entries.map fun p =>
        (p.1, Val.str (if skipName mode L p.1.render then p.2
          else if p.2 ≠ "" then redactedMessage else p.2)))) := by
  rw [redact, redactEntries_strLeaves]
  rfl

/-- Reflexivity of `goEqualFold`. -/
theorem goEqualFold_self (s : String) : goEqualFold s s = true := by
  simp [goEqualFold]

/-! ### C2 -/

/-- C2, counterexample: the deny half of the claim is false.  A bare
top-level string `"password"` with a nil deny list is NOT returned
unchanged — the String case of `redact` redacts every non-empty string it
reaches, regardless of mode, so the result is `"REDACTED"` (and hence an
empty deny list does not mean "nothing is redacted at all"). -/
theorem c2_counterexample :
    RedactWithDenyList (.str "password") [] = .ok (.str "REDACTED") ∧
      Val.str "REDACTED" ≠ Val.str "password" := by
  constructor
  · simp [RedactWithDenyList, reprintThis, redact_str, redactedMessage]
  · intro h
    injection h with h'
    exact absurd h' (by decide)

/-- C2, amended: a non-empty text or byte-sequence leaf with no naming
context (bare top-level value, or an element of an un-keyed sequence) is
redacted by BOTH `RedactWithAllowList` and `RedactWithDenyList`,
regardless of the name list; an empty deny list leaves every leaf in a
named location (string-keyed map entry, string- or `[]byte`-typed struct
field) unchanged, but leaves without a naming context are still
redacted. -/
theorem c2_amended :
    (∀ (L : List String) (s : String), s ≠ "" →
      RedactWithAllowList (.str s) L = .ok (.str redactedMessage) ∧
        RedactWithDenyList (.str s) L = .ok (.str redactedMessage)) ∧
    (∀ (L : List String) (bs : List Nat), bs ≠ [] →
      RedactWithAllowList (.bytes bs) L = .ok (.bytes redactedBytes) ∧
        RedactWithDenyList (.bytes bs) L = .ok (.bytes redactedBytes)) ∧
    (∀ (L : List String) (s : String), s ≠ "" →
      RedactWithAllowList (.slice [.str s]) L =
          .ok (.slice [.str redactedMessage]) ∧
        RedactWithDenyList (.slice [.str s]) L =
          .ok (.slice [.str redactedMessage])) ∧
    (∀ (n s : String),
      redact .deny [] (.strct [(n, .str s)]) = .ok (.strct [(n, .str s)])) ∧
    (∀ (k s : String),
      redact .deny [] (.mp [(.str k, .str s)]) =
        .ok (.mp [(.str k, .str s)])) := by
  refine ⟨fun L s hs => ?_, fun L bs hbs => ?_, fun L s hs => ?_,
    fun n s => ?_, fun k s => ?_⟩
  · constructor <;>
      simp [RedactWithAllowList, RedactWithDenyList, reprintThis,
        redact_str, hs]
  · have hlen : bs.length ≠ 0 := fun h => hbs (List.length_eq_zero.mp h)
    constructor <;>
      simp [RedactWithAllowList, RedactWithDenyList, reprintThis,
        redact_bytes, hlen]
  · constructor
    · rw [RedactWithAllowList, reprintThis, redact, redactList, redactList,
        redact_str]
      simp [bind, Except.bind, hs]
    · rw [RedactWithDenyList, reprintThis, redact, redactList, redactList,
        redact_str]
      simp [bind, Except.bind, hs]
  · rw [redact, redactFields, redactFields]
    simp [bind, Except.bind, isLeafKind, skipName, nameInList]
  · rw [redact, redactEntries, redactEntries]
    simp [bind, Except.bind, skipName, nameInList]

/-- C2, witness for the amended theorem. -/
theorem c2_witness :
    RedactWithAllowList (.str "password") [] = .ok (.str redactedMessage) ∧
      RedactWithDenyList (.str "password") [] = .ok (.str redactedMessage) :=
  c2_amended.1 [] "password" (by decide)

/-! ### C3 -/

/-- C3, counterexample: a matched map key does NOT merely protect its
direct leaf content of its entry — it suppresses traversal entirely.  The
struct stored under the allow-listed key `"config"` is returned with its
`Password` field intact, although the very same struct, redacted on its
own with the same list, has `Password` redacted (the Map case of
`redact` hits `continue` before recursing). -/
theorem c3_counterexample :
    RedactWithAllowList
        (.mp [(.str "config", .strct [("Password", .str "hunter2")])])
        ["config"] =
      .ok (.mp [(.str "config", .strct [("Password", .str "hunter2")])]) ∧
    RedactWithAllowList (.strct [("Password", .str "hunter2")]) ["config"] =
      .ok (.strct [("Password", .str "REDACTED")]) := by
  constructor
  · rw [RedactWithAllowList, reprintThis, redact, redactEntries, redactEntries]
    simp +decide [bind, Except.bind, skipName, nameInList, goEqualFold,
      MapKey.render]
  · rw [RedactWithAllowList, reprintThis, redact, redactFields, redactFields]
    simp +decide [bind, Except.bind, isLeafKind, skipName, nameInList,
      goEqualFold, redact_str, redactedMessage]

/-- C3, amended: for record fields the claim holds — a structural
(non-leaf) field value is recursed regardless of its name, with every
nested location evaluated against the same list, and a matched name
protects only the own direct string/byte leaf of the field.  For map keys it
does not: a matched map key suppresses the processing of its entire
entry, traversal included. -/
theorem c3_amended :
    (∀ (mode : RedactMode) (L : List String) (n : String) (v : Val),
      isLeafKind v = false →
        redact mode L (.strct [(n, v)]) =
          (redact mode L v).map fun v' => .strct [(n, v')]) ∧
    (∀ (mode : RedactMode) (L : List String) (n s : String),
      skipName mode L n = true →
        redact mode L (.strct [(n, .str s)]) = .ok (.strct [(n, .str s)])) ∧
    (∀ (mode : RedactMode) (L : List String) (k : MapKey) (v : Val),
      skipName mode L k.render = true →
        redact mode L (.mp [(k, v)]) = .ok (.mp [(k, v)])) := by
  refine ⟨fun mode L n v hv => ?_, fun mode L n s hn => ?_,
    fun mode L k v hk => ?_⟩
  · rw [redact, redactFields, redactFields]
    cases hred : redact mode L v <;>
      simp [bind, Except.bind, Except.map, hred, hv]
  · rw [redact, redactFields, redactFields]
    simp [bind, Except.bind, isLeafKind, hn]
  · rw [redact, redactEntries, redactEntries]
    simp [bind, Except.bind, hk]

/-- C3, witness for the amended theorem. -/
theorem c3_witness :
    (redact .allow ["Nested"] (.strct [("Nested", .strct [("P", .str "x")])]) =
        (redact .allow ["Nested"] (.strct [("P", .str "x")])).map
          fun v' => Val.strct [("Nested", v')]) ∧
      redact .allow ["Username"] (.strct [("Username", .str "dustin")]) =
        .ok (.strct [("Username", .str "dustin")]) ∧
      redact .allow ["config"]
          (.mp [(.str "config", .strct [("P", .str "x")])]) =
        .ok (.mp [(.str "config", .strct [("P", .str "x")])]) :=
  ⟨c3_amended.1 .allow ["Nested"] "Nested" (.strct [("P", .str "x")]) rfl,
    c3_amended.2.1 .allow ["Username"] "Username" "dustin" (by decide),
    c3_amended.2.2 .allow ["config"] (.str "config") (.strct [("P", .str "x")])
      (by decide)⟩

/-! ### C8 -/

/-- C8, counterexample: a record field of pointer-to-string type whose
name matches the allow list does NOT keep its pointed-to string.  A
pointer field never passes the `isStringType || isByteSliceType` test,
so the allow-list is never consulted for it; the field is recursed with
the naming context lost, and the pointed-to non-empty string is
redacted. -/
theorem c8_counterexample :
    RedactWithAllowList (.strct [("SP", .ptr (some (.str "secret")))]) ["SP"] =
        .ok (.strct [("SP", .ptr (some (.str "REDACTED")))]) ∧
      RedactWithAllowList (.strct [("SP", .ptr (some (.str "secret")))])
          ["SP"] ≠
        .ok (.strct [("SP", .ptr (some (.str "secret")))]) := by
  have h : RedactWithAllowList
      (.strct [("SP", .ptr (some (.str "secret")))]) ["SP"] =
      .ok (.strct [("SP", .ptr (some (.str "REDACTED")))]) := by
    rw [RedactWithAllowList, reprintThis, redact, redactFields, redactFields]
    rw [redact_ptr_some, redact_str]
    simp +decide [bind, Except.bind, Except.map, isLeafKind, redactedMessage]
  refine ⟨h, fun hcontra => ?_⟩
  rw [h] at hcontra
  simp +decide at hcontra

/-- C8, amended: indirections are dereferenced, but the naming context
does not survive the recursion into a pointer-typed field: the
allow-list match only protects fields whose immediate kind is string or
`[]byte`, so the non-empty string behind a pointer field is always
redacted in allow mode, even when the field name is listed.  An absent
(nil) reference, including a nil top-level pointer, terminates traversal
at that branch with no mutation. -/
theorem c8_amended :
    (∀ (L : List String) (n s : String), s ≠ "" →
      redact .allow L (.strct [(n, .ptr (some (.str s)))]) =
        .ok (.strct [(n, .ptr (some (.str redactedMessage)))])) ∧
    (∀ (mode : RedactMode) (L : List String),
      redact mode L (.ptr none) = .ok (.ptr none)) ∧
    (∀ (mode : RedactMode) (L : List String) (n : String),
      redact mode L (.strct [(n, .ptr none)]) =
        .ok (.strct [(n, .ptr none)])) ∧
    (∀ (L : List String),
      RedactWithAllowList (.ptr none) L = .ok (.ptr none) ∧
        RedactWithDenyList (.ptr none) L = .ok (.ptr none)) := by
  refine ⟨fun L n s hs => ?_, fun mode L => redact_ptr_none mode L,
    fun mode L n => ?_, fun L => ⟨?_, ?_⟩⟩
  · rw [redact, redactFields, redactFields, redact_ptr_some, redact_str]
    simp [bind, Except.bind, Except.map, isLeafKind, hs]
  · rw [redact, redactFields, redactFields, redact_ptr_none]
    simp [bind, Except.bind, isLeafKind]
  · rw [RedactWithAllowList, reprintThis, redact_ptr_none]
  · rw [RedactWithDenyList, reprintThis, redact_ptr_none]

/-- C8, witness for the amended theorem. -/
theorem c8_witness :
    redact .allow ["SP"] (.strct [("SP", .ptr (some (.str "secret")))]) =
      .ok (.strct [("SP", .ptr (some (.str redactedMessage)))]) :=
  c8_amended.1 ["SP"] "SP" "secret" (by decide)

/-! ### C9 -/

/-- C9: the redaction traversal CAN fault on ordinary introspectable
data, contrary to the claim.  A non-empty fixed-length byte array is not
overwritten with the sentinel: the Array/Slice case calls
`reflectedValueElem.Set(reflect.ValueOf([]byte(redactedMessage)))`,
which panics because `[]uint8` is not assignable to `[N]uint8`.  A nil
interface-typed slot also faults: the Interface case calls
`element.Type()` on the zero `reflect.Value`.  Both failure paths are in
the traversal itself, not in the Deep-Copy Stage. -/
theorem c9_traversal_panics :
    RedactWithAllowList (.byteArr [115, 101, 99]) [] =
        .error .setNotAssignable ∧
      RedactWithDenyList (.byteArr [115, 101, 99]) ["Key"] =
        .error .setNotAssignable ∧
      RedactWithAllowList (.strct [("Password", .iface none)]) [] =
        .error .invalidValue ∧
      RedactWithDenyList (.slice [.iface none]) [] =
        .error .invalidValue := by
  refine ⟨?_, ?_, ?_, ?_⟩
  · rw [RedactWithAllowList, reprintThis, redact_byteArr]; simp
  · rw [RedactWithDenyList, reprintThis, redact_byteArr]; simp
  · rw [RedactWithAllowList, reprintThis, redact, redactFields, redactFields,
      redact_iface_none]
    simp [bind, Except.bind, isLeafKind]
  · rw [RedactWithDenyList, reprintThis, redact, redactList, redactList,
      redact_iface_none]
    simp [bind, Except.bind]

/-! ### C4 -/

/-- C4: name matching is case-insensitive under both policies.  A list
entry `e` that equals a field or map-key name `n` ignoring (ASCII) case
matches it: in allow mode the string leaf at the location is left unchanged,
in deny mode it is redacted — both for a record field named `n` and for
a map entry keyed `n`. -/
theorem c4_case_insensitive_matching (e n s : String) (L : List String)
    (hmem : e ∈ L)
    (hfold : e.toList.map Char.toLower = n.toList.map Char.toLower)
    (hs : s ≠ "") :
    RedactWithAllowList (.strct [(n, .str s)]) L =
        .ok (.strct [(n, .str s)]) ∧
      RedactWithDenyList (.strct [(n, .str s)]) L =
        .ok (.strct [(n, .str redactedMessage)]) ∧
      RedactWithAllowList (.mp [(.str n, .str s)]) L =
        .ok (.mp [(.str n, .str s)]) ∧
      RedactWithDenyList (.mp [(.str n, .str s)]) L =
        .ok (.mp [(.str n, .str redactedMessage)]) := by
  have hin : nameInList L n = true := by
    simp only [nameInList, List.any_eq_true]
    exact ⟨e, hmem, by simp only [goEqualFold, beq_iff_eq]; exact hfold⟩
  have hallow : skipName .allow L n = true := by simp [skipName, hin]
  have hdeny : skipName .deny L n = false := by simp [skipName, hin]
  refine ⟨?_, ?_, ?_, ?_⟩
  · rw [RedactWithAllowList, reprintThis, redact, redactFields, redactFields]
    simp [bind, Except.bind, isLeafKind, hallow]
  · rw [RedactWithDenyList, reprintThis, redact, redactFields, redactFields,
      redact_str]
    simp [bind, Except.bind, isLeafKind, hdeny, hs]
  · rw [RedactWithAllowList, reprintThis, redact, redactEntries,
      redactEntries]
    simp [bind, Except.bind, MapKey.render, hallow]
  · rw [RedactWithDenyList, reprintThis, redact, redactEntries,
      redactEntries, redact_str]
    simp [bind, Except.bind, MapKey.render, hdeny, hs]

/-- C4, witness: `"username"` in the list matches a location named
`"Username"`. -/
theorem c4_witness :
    RedactWithAllowList (.strct [("Username", .str "dustin")]) ["username"] =
        .ok (.strct [("Username", .str "dustin")]) ∧
      RedactWithDenyList (.strct [("Username", .str "dustin")]) ["username"] =
        .ok (.strct [("Username", .str redactedMessage)]) ∧
      RedactWithAllowList (.mp [(.str "Username", .str "dustin")])
          ["username"] =
        .ok (.mp [(.str "Username", .str "dustin")]) ∧
      RedactWithDenyList (.mp [(.str "Username", .str "dustin")])
          ["username"] =
        .ok (.mp [(.str "Username", .str redactedMessage)]) :=
  c4_case_insensitive_matching "username" "Username" "dustin" ["username"]
    (by decide) (by decide) (by decide)

/-! ### C5 -/

/-- C5: the readme scenario and the allow/deny symmetry.  On the struct
`{Username:"dustin", Password:"hunter2", Key:[]byte("secret"),
IsAdmin:true}`, the allow list `["Username"]` and the deny list
`["Password","Key"]` produce the identical output, with `Password` and
`Key` redacted; and in general, for a flat record of non-empty string
fields with `X` the only listed name, allow mode keeps exactly `X` and
redacts the rest, deny mode redacts exactly `X` and keeps the rest. -/
theorem c5_allow_deny_symmetry :
    (redactedBytes = [82, 69, 68, 65, 67, 84, 69, 68]) ∧
    (RedactWithAllowList (.strct [("Username", .str "dustin"),
          ("Password", .str "hunter2"),
          ("Key", .bytes [115, 101, 99, 114, 101, 116]),
          ("IsAdmin", .prim)]) ["Username"] =
        .ok (.strct [("Username", .str "dustin"),
          ("Password", .str "REDACTED"),
          ("Key", .bytes redactedBytes), ("IsAdmin", .prim)])) ∧
    (RedactWithDenyList (.strct [("Username", .str "dustin"),
          ("Password", .str "hunter2"),
          ("Key", .bytes [115, 101, 99, 114, 101, 116]),
          ("IsAdmin", .prim)]) ["Password", "Key"] =
        .ok (.strct [("Username", .str "dustin"),
          ("Password", .str "REDACTED"),
          ("Key", .bytes redactedBytes), ("IsAdmin", .prim)])) ∧
    (∀ (flds₁ flds₂ : List (String × String)) (X x : String),
      (∀ p ∈ flds₁ ++ flds₂, goEqualFold X p.1 = false) →
      (∀ p ∈ flds₁ ++ flds₂, p.2 ≠ "") → x ≠ "" →
      RedactWithAllowList
          (.strct ((flds₁ ++ [(X, x)] ++ flds₂).map
            fun p => (p.1, Val.str p.2))) [X] =
        .ok (.strct (flds₁.map (fun p => (p.1, Val.str redactedMessage)) ++
          [(X, Val.str x)] ++
          flds₂.map fun p => (p.1, Val.str redactedMessage))) ∧
      RedactWithDenyList
          (.strct ((flds₁ ++ [(X, x)] ++ flds₂).map
            fun p => (p.1, Val.str p.2))) [X] =
        .ok (.strct (flds₁.map (fun p => (p.1, Val.str p.2)) ++
          [(X, Val.str redactedMessage)] ++
          flds₂.map fun p => (p.1, Val.str p.2)))) := by
  refine ⟨by decide, ?_, ?_, ?_⟩
  · rw [RedactWithAllowList, reprintThis, redact, redactFields, redactFields,
      redactFields, redactFields, redactFields, redact_str, redact_bytes,
      redact_prim]
    simp +decide [bind, Except.bind, isLeafKind, skipName, nameInList,
      goEqualFold, redactedMessage]
  · rw [RedactWithDenyList, reprintThis, redact, redactFields, redactFields,
      redactFields, redactFields, redactFields, redact_str, redact_bytes,
      redact_prim]
    simp +decide [bind, Except.bind, isLeafKind, skipName, nameInList,
      goEqualFold, redactedMessage]
  · intro flds₁ flds₂ X x hothers hne hx
    have hXa : skipName .allow [X] X = true := by
      simp [skipName, nameInList, goEqualFold_self]
    have hXd : skipName .deny [X] X = false := by
      simp [skipName, nameInList, goEqualFold_self]
    have hoa : ∀ p ∈ flds₁ ++ flds₂, skipName .allow [X] p.1 = false :=
      fun p hp => by simp [skipName, nameInList, hothers p hp]
    have hod : ∀ p ∈ flds₁ ++ flds₂, skipName .deny [X] p.1 = true :=
      fun p hp => by simp [skipName, nameInList, hothers p hp]
    constructor
    · rw [RedactWithAllowList, reprintThis, redact_strct_strLeaves]
      refine congrArg (fun l => Except.ok (Val.strct l)) ?_
      simp only [List.map_append, List.map_cons, List.map_nil, hXa,
        if_true]
      refine congrArg₂ (· ++ ·) (congrArg₂ (· ++ ·) ?_ rfl) ?_
      · exact List.map_congr_left fun p hp => by
          simp [hoa p (List.mem_append.mpr (Or.inl hp)),
            hne p (List.mem_append.mpr (Or.inl hp))]
      · exact List.map_congr_left fun p hp => by
          simp [hoa p (List.mem_append.mpr (Or.inr hp)),
            hne p (List.mem_append.mpr (Or.inr hp))]
    · rw [RedactWithDenyList, reprintThis, redact_strct_strLeaves]
      refine congrArg (fun l => Except.ok (Val.strct l)) ?_
      simp only [List.map_append, List.map_cons, List.map_nil, hXd,
        if_false, Bool.false_eq_true, hx, ne_eq, not_false_eq_true,
        if_true]
      refine congrArg₂ (· ++ ·) (congrArg₂ (· ++ ·) ?_ rfl) ?_
      · exact List.map_congr_left fun p hp => by
          simp [hod p (List.mem_append.mpr (Or.inl hp))]
      · exact List.map_congr_left fun p hp => by
          simp [hod p (List.mem_append.mpr (Or.inr hp))]

/-- C5, witness for the general symmetry component. -/
theorem c5_witness :
    RedactWithAllowList
        (.strct (([("Password", "hunter2")] ++ [("Username", "dustin")] ++
          ([] : List (String × String))).map
            fun p => (p.1, Val.str p.2))) ["Username"] =
      .ok (.strct ([("Password", "hunter2")].map
        (fun p => (p.1, Val.str redactedMessage)) ++
        [("Username", Val.str "dustin")] ++
        ([] : List (String × String)).map
          fun p => (p.1, Val.str redactedMessage))) :=
  (c5_allow_deny_symmetry.2.2.2 [("Password", "hunter2")] []
    "Username" "dustin" (by decide) (by decide) (by decide)).1

/-! ### C10 -/

/-- C10: maps with non-string key types do not fault — `redact` renders
every such key with the `reflect.Value.String()` placeholder `"<T Value>"`
— and when no list entry case-insensitively equals that placeholder, no
key ever matches: allow mode redacts every non-empty string value in
the map, deny mode returns the map unchanged. -/
theorem c10_nonstring_keys (L : List String)
    (entries : List (MapKey × String))
    (_hkeys : ∀ p ∈ entries, ∃ t, p.1 = MapKey.nonString t)
    (h : ∀ p ∈ entries, ∀ e ∈ L, goEqualFold e p.1.render = false) :
    RedactWithAllowList
        (.mp (entries.map fun p => (p.1, Val.str p.2))) L =
      .ok (.mp (entries.map fun p =>
        (p.1, Val.str (if p.2 ≠ "" then redactedMessage else p.2)))) ∧
    RedactWithDenyList
        (.mp (entries.map fun p => (p.1, Val.str p.2))) L =
      .ok (.mp (entries.map fun p => (p.1, Val.str p.2))) := by
  have hnot : ∀ p ∈ entries, nameInList L p.1.render = false := by
    intro p hp
    simp only [nameInList, List.any_eq_false]
    intro e he
    simp [h p hp e he]
  constructor
  · rw [RedactWithAllowList, reprintThis, redact_mp_strLeaves]
    refine congrArg (fun l => Except.ok (Val.mp l)) ?_
    refine List.map_congr_left fun p hp => ?_
    simp [skipName, hnot p hp]
  · rw [RedactWithDenyList, reprintThis, redact_mp_strLeaves]
    refine congrArg (fun l => Except.ok (Val.mp l)) ?_
    refine List.map_congr_left fun p hp => ?_
    simp [skipName, hnot p hp]

/-- C10, witness: integer-keyed map under both policies. -/
theorem c10_witness :
    RedactWithAllowList
        (.mp ([(MapKey.nonString "int", "secret")].map
          fun p => (p.1, Val.str p.2))) ["password"] =
      .ok (.mp ([(MapKey.nonString "int", "secret")].map fun p =>
        (p.1, Val.str (if p.2 ≠ "" then redactedMessage else p.2)))) ∧
    RedactWithDenyList
        (.mp ([(MapKey.nonString "int", "secret")].map
          fun p => (p.1, Val.str p.2))) ["password"] =
      .ok (.mp ([(MapKey.nonString "int", "secret")].map fun p =>
        (p.1, Val.str p.2))) :=
  c10_nonstring_keys ["password"] [(MapKey.nonString "int", "secret")]
    (fun p hp => ⟨"int", by
      simp only [List.mem_singleton] at hp
      rw [hp]⟩)
    (by decide)

/-! ### C6 -/

mutual

/-- Relation between an input value and a traversal output: the output
has the same shape, every empty string leaf, empty byte-slice leaf and
empty byte-array leaf is unchanged, and only non-empty leaves may have
been rewritten. -/
inductive EmptyPres : Val → Val → Prop where
  | strEmpty : EmptyPres (.str "") (.str "")
  | strNE (s t : String) : s ≠ "" → EmptyPres (.str s) (.str t)
  | bytesEmpty : EmptyPres (.bytes []) (.bytes [])
  | bytesNE (bs cs : List Nat) : bs ≠ [] →
      EmptyPres (.bytes bs) (.bytes cs)
  | byteArrEmpty : EmptyPres (.byteArr []) (.byteArr [])
  | byteArrNE (bs cs : List Nat) : bs ≠ [] →
      EmptyPres (.byteArr bs) (.byteArr cs)
  | slice {vs vs' : List Val} : EmptyPresList vs vs' →
      EmptyPres (.slice vs) (.slice vs')
  | arr {vs vs' : List Val} : EmptyPresList vs vs' →
      EmptyPres (.arr vs) (.arr vs')
  | ptrNone : EmptyPres (.ptr none) (.ptr none)
  | ptrSome {v v' : Val} : EmptyPres v v' →
      EmptyPres (.ptr (some v)) (.ptr (some v'))
  | ifaceSome {v v' : Val} : EmptyPres v v' →
      EmptyPres (.iface (some v)) (.iface (some v'))
  | mp {es es' : List (MapKey × Val)} : EmptyPresEntries es es' →
      EmptyPres (.mp es) (.mp es')
  | strct {fs fs' : List (String × Val)} : EmptyPresFields fs fs' →
      EmptyPres (.strct fs) (.strct fs')
  | prim : EmptyPres .prim .prim

/-- Pointwise `EmptyPres` on sequence elements. -/
inductive EmptyPresList : List Val → List Val → Prop where
  | nil : EmptyPresList [] []
  | cons {v v' : Val} {vs vs' : List Val} : EmptyPres v v' →
      EmptyPresList vs vs' → EmptyPresList (v :: vs) (vs' |> List.cons v')

/-- Pointwise `EmptyPres` on map entries: keys are unchanged, and an
entry may also be skipped outright (left untouched). -/
inductive EmptyPresEntries :
    List (MapKey × Val) → List (MapKey × Val) → Prop where
  | nil : EmptyPresEntries [] []
  | consSkip {k : MapKey} {v : Val} {es es' : List (MapKey × Val)} :
      EmptyPresEntries es es' →
      EmptyPresEntries ((k, v) :: es) ((k, v) :: es')
  | cons {k : MapKey} {v v' : Val} {es es' : List (MapKey × Val)} :
      EmptyPres v v' → EmptyPresEntries es es' →
      EmptyPresEntries ((k, v) :: es) ((k, v') :: es')

/-- Pointwise `EmptyPres` on struct fields: names are unchanged, and a
field may also be skipped outright (left untouched). -/
inductive EmptyPresFields :
    List (String × Val) → List (String × Val) → Prop where
  | nil : EmptyPresFields [] []
  | consSkip {n : String} {v : Val} {fs fs' : List (String × Val)} :
      EmptyPresFields fs fs' →
      EmptyPresFields ((n, v) :: fs) ((n, v) :: fs')
  | cons {n : String} {v v' : Val} {fs fs' : List (String × Val)} :
      EmptyPres v v' → EmptyPresFields fs fs' →
      EmptyPresFields ((n, v) :: fs) ((n, v') :: fs')

end

/-- Whenever the traversal returns a value, the output is shapewise the
input with only non-empty leaves rewritten — in particular every empty
leaf is untouched. -/
theorem redact_emptyPres (mode : RedactMode) (L : List String) :
    ∀ v v', redact mode L v = .ok v' → EmptyPres v v' := by
  refine redact.induct mode L
    (fun v => ∀ v', redact mode L v = .ok v' → EmptyPres v v')
    (fun fs => ∀ fs', redactFields mode L fs = .ok fs' →
      EmptyPresFields fs fs')
    (fun es => ∀ es', redactEntries mode L es = .ok es' →
      EmptyPresEntries es es')
    (fun vs => ∀ vs', redactList mode L vs = .ok vs' →
      EmptyPresList vs vs')
    ?_ ?_ ?_ ?_ ?_ ?_ ?_ ?_ ?_ ?_ ?_ ?_ ?_ ?_ ?_ ?_ ?_ ?_ ?_ ?_ ?_
  · intro v' h
    rw [redact_ptr_none, Except.ok.injEq] at h
    subst h
    exact .ptrNone
  · intro v ih v' h
    rw [redact] at h
    cases hred : redact mode L v with
    | error e => rw [hred] at h; exact absurd h (by simp [bind, Except.bind])
    | ok v₁ =>
        rw [hred] at h
        simp only [bind, Except.bind, Except.ok.injEq] at h
        subst h
        exact .ptrSome (ih v₁ hred)
  · intro bs v' h
    rw [redact_bytes, Except.ok.injEq] at h
    subst h
    rcases eq_or_ne bs [] with hbs | hbs
    · subst hbs
      exact .bytesEmpty
    · exact .bytesNE bs _ hbs
  · intro bs hbs v' h
    rw [redact_byteArr, if_pos hbs] at h
    exact absurd h (by simp)
  · intro bs hbs v' h
    rw [redact_byteArr, if_neg hbs, Except.ok.injEq] at h
    subst h
    have : bs = [] := by
      simpa [List.length_eq_zero] using hbs
    subst this
    exact .byteArrEmpty
  · intro vs ih v' h
    rw [redact] at h
    cases hred : redactList mode L vs with
    | error e => rw [hred] at h; exact absurd h (by simp [bind, Except.bind])
    | ok vs₁ =>
        rw [hred] at h
        simp only [bind, Except.bind, Except.ok.injEq] at h
        subst h
        exact .slice (ih vs₁ hred)
  · intro vs ih v' h
    rw [redact] at h
    cases hred : redactList mode L vs with
    | error e => rw [hred] at h; exact absurd h (by simp [bind, Except.bind])
    | ok vs₁ =>
        rw [hred] at h
        simp only [bind, Except.bind, Except.ok.injEq] at h
        subst h
        exact .arr (ih vs₁ hred)
  · intro v' h
    rw [redact_iface_none] at h
    exact absurd h (by simp)
  · intro v ih v' h
    rw [redact] at h
    cases hred : redact mode L v with
    | error e => rw [hred] at h; exact absurd h (by simp [bind, Except.bind])
    | ok v₁ =>
        rw [hred] at h
        simp only [bind, Except.bind, Except.ok.injEq] at h
        subst h
        exact .ifaceSome (ih v₁ hred)
  · intro es ih v' h
    rw [redact] at h
    cases hred : redactEntries mode L es with
    | error e => rw [hred] at h; exact absurd h (by simp [bind, Except.bind])
    | ok es₁ =>
        rw [hred] at h
        simp only [bind, Except.bind, Except.ok.injEq] at h
        subst h
        exact .mp (ih es₁ hred)
  · intro s v' h
    rw [redact_str, Except.ok.injEq] at h
    subst h
    rcases eq_or_ne s "" with hs | hs
    · subst hs
      simpa using EmptyPres.strEmpty
    · exact .strNE s _ hs
  · intro fs ih v' h
    rw [redact] at h
    cases hred : redactFields mode L fs with
    | error e => rw [hred] at h; exact absurd h (by simp [bind, Except.bind])
    | ok fs₁ =>
        rw [hred] at h
        simp only [bind, Except.bind, Except.ok.injEq] at h
        subst h
        exact .strct (ih fs₁ hred)
  · intro v' h
    rw [redact_prim, Except.ok.injEq] at h
    subst h
    exact .prim
  · intro vs' h
    rw [redactList] at h
    simp only [Except.ok.injEq] at h
    subst h
    exact .nil
  · intro v vs ihv ihvs vs' h
    rw [redactList] at h
    cases hred : redact mode L v with
    | error e => rw [hred] at h; exact absurd h (by simp [bind, Except.bind])
    | ok v₁ =>
        rw [hred] at h
        cases hreds : redactList mode L vs with
        | error e =>
            rw [hreds] at h
            exact absurd h (by simp [bind, Except.bind])
        | ok vs₁ =>
            rw [hreds] at h
            simp only [bind, Except.bind, Except.ok.injEq] at h
            subst h
            exact .cons (ihv v₁ hred) (ihvs vs₁ hreds)
  · intro es' h
    rw [redactEntries] at h
    simp only [Except.ok.injEq] at h
    subst h
    exact .nil
  · intro k v rest hskip ihrest es' h
    rw [redactEntries, if_pos hskip] at h
    cases hreds : redactEntries mode L rest with
    | error e => rw [hreds] at h; exact absurd h (by simp [bind, Except.bind])
    | ok rest₁ =>
        rw [hreds] at h
        simp only [bind, Except.bind, Except.ok.injEq] at h
        subst h
        exact .consSkip (ihrest rest₁ hreds)
  · intro k v rest hskip ihv ihrest es' h
    rw [redactEntries, if_neg hskip] at h
    cases hred : redact mode L v with
    | error e => rw [hred] at h; exact absurd h (by simp [bind, Except.bind])
    | ok v₁ =>
        rw [hred] at h
        cases hreds : redactEntries mode L rest with
        | error e =>
            rw [hreds] at h
            exact absurd h (by simp [bind, Except.bind])
        | ok rest₁ =>
            rw [hreds] at h
            simp only [bind, Except.bind, Except.ok.injEq] at h
            subst h
            exact .cons (ihv v₁ hred) (ihrest rest₁ hreds)
  · intro fs' h
    rw [redactFields] at h
    simp only [Except.ok.injEq] at h
    subst h
    exact .nil
  · intro n v rest hskip ihrest fs' h
    rw [redactFields, if_pos hskip] at h
    cases hreds : redactFields mode L rest with
    | error e => rw [hreds] at h; exact absurd h (by simp [bind, Except.bind])
    | ok rest₁ =>
        rw [hreds] at h
        simp only [bind, Except.bind, Except.ok.injEq] at h
        subst h
        exact .consSkip (ihrest rest₁ hreds)
  · intro n v rest hskip ihv ihrest fs' h
    rw [redactFields, if_neg hskip] at h
    cases hred : redact mode L v with
    | error e => rw [hred] at h; exact absurd h (by simp [bind, Except.bind])
    | ok v₁ =>
        rw [hred] at h
        cases hreds : redactFields mode L rest with
        | error e =>
            rw [hreds] at h
            exact absurd h (by simp [bind, Except.bind])
        | ok rest₁ =>
            rw [hreds] at h
            simp only [bind, Except.bind, Except.ok.injEq] at h
            subst h
            exact .cons (ihv v₁ hred) (ihrest rest₁ hreds)

/-- C6: under both policies and any name list, an empty string leaf and
an empty (or nil) byte-sequence leaf are never redacted: the bare leaves
come back unchanged, and on any input on which the call returns, the
output is shapewise the input with only NON-empty leaves possibly
rewritten (`EmptyPres`), so every empty leaf appears unchanged in the
output. -/
theorem c6_empty_value_exemption :
    (∀ (mode : RedactMode) (L : List String),
      redact mode L (.str "") = .ok (.str "") ∧
        redact mode L (.bytes []) = .ok (.bytes []) ∧
        redact mode L (.byteArr []) = .ok (.byteArr [])) ∧
    (∀ (v v' : Val) (L : List String),
      RedactWithAllowList v L = .ok v' → EmptyPres v v') ∧
    (∀ (v v' : Val) (L : List String),
      RedactWithDenyList v L = .ok v' → EmptyPres v v') := by
  refine ⟨fun mode L => ⟨?_, ?_, ?_⟩,
    fun v v' L h => redact_emptyPres .allow L v v' h,
    fun v v' L h => redact_emptyPres .deny L v v' h⟩
  · rw [redact_str]
    simp
  · rw [redact_bytes]
    simp
  · rw [redact_byteArr]
    simp

/-- C6, witness: a struct with an empty `Password` string and an empty
byte slice is returned unchanged shapewise, empty leaves untouched. -/
theorem c6_witness :
    EmptyPres (.strct [("Password", .str ""), ("Key", .bytes [])])
      (.strct [("Password", .str ""), ("Key", .bytes [])]) :=
  c6_empty_value_exemption.2.1
    (.strct [("Password", .str ""), ("Key", .bytes [])])
    (.strct [("Password", .str ""), ("Key", .bytes [])]) [] (by
      rw [RedactWithAllowList, reprintThis, redact, redactFields,
        redactFields, redactFields, redact_str, redact_bytes]
      simp [bind, Except.bind, isLeafKind, skipName, nameInList])

/-! ### C7 -/

/-- Output of a traversal has the same leaf classification as its input
(the Struct case of a second pass takes the same branch). -/
theorem emptyPres_isLeafKind {v v' : Val} (h : EmptyPres v v') :
    isLeafKind v' = isLeafKind v := by
  cases h <;> rfl

/-- Sentinel bytes are non-empty. -/
theorem redactedBytes_ne_nil : redactedBytes.length ≠ 0 := by decide

/-- Sentinel text is non-empty. -/
theorem redactedMessage_ne_empty : redactedMessage ≠ "" := by decide

/-- One traversal pass is idempotent: a second pass over an output in
the same mode with the same list returns it unchanged. -/
theorem redact_idem (mode : RedactMode) (L : List String) :
    ∀ v v', redact mode L v = .ok v' → redact mode L v' = .ok v' := by
  refine redact.induct mode L
    (fun v => ∀ v', redact mode L v = .ok v' → redact mode L v' = .ok v')
    (fun fs => ∀ fs', redactFields mode L fs = .ok fs' →
      redactFields mode L fs' = .ok fs')
    (fun es => ∀ es', redactEntries mode L es = .ok es' →
      redactEntries mode L es' = .ok es')
    (fun vs => ∀ vs', redactList mode L vs = .ok vs' →
      redactList mode L vs' = .ok vs')
    ?_ ?_ ?_ ?_ ?_ ?_ ?_ ?_ ?_ ?_ ?_ ?_ ?_ ?_ ?_ ?_ ?_ ?_ ?_ ?_ ?_
  · intro v' h
    rw [redact_ptr_none, Except.ok.injEq] at h
    subst h
    exact redact_ptr_none mode L
  · intro v ih v' h
    rw [redact] at h
    cases hred : redact mode L v with
    | error e => rw [hred] at h; exact absurd h (by simp [bind, Except.bind])
    | ok v₁ =>
        rw [hred] at h
        simp only [bind, Except.bind, Except.ok.injEq] at h
        subst h
        rw [redact, ih v₁ hred]
        simp [bind, Except.bind]
  · intro bs v' h
    rw [redact_bytes, Except.ok.injEq] at h
    subst h
    rcases eq_or_ne bs.length 0 with hbs | hbs
    · rw [redact_bytes]
      simp [hbs]
    · rw [if_pos hbs, redact_bytes, if_pos redactedBytes_ne_nil]
  · intro bs hbs v' h
    rw [redact_byteArr, if_pos hbs] at h
    exact absurd h (by simp)
  · intro bs hbs v' h
    rw [redact_byteArr, if_neg hbs, Except.ok.injEq] at h
    subst h
    rw [redact_byteArr, if_neg hbs]
  · intro vs ih v' h
    rw [redact] at h
    cases hred : redactList mode L vs with
    | error e => rw [hred] at h; exact absurd h (by simp [bind, Except.bind])
    | ok vs₁ =>
        rw [hred] at h
        simp only [bind, Except.bind, Except.ok.injEq] at h
        subst h
        rw [redact, ih vs₁ hred]
        simp [bind, Except.bind]
  · intro vs ih v' h
    rw [redact] at h
    cases hred : redactList mode L vs with
    | error e => rw [hred] at h; exact absurd h (by simp [bind, Except.bind])
    | ok vs₁ =>
        rw [hred] at h
        simp only [bind, Except.bind, Except.ok.injEq] at h
        subst h
        rw [redact, ih vs₁ hred]
        simp [bind, Except.bind]
  · intro v' h
    rw [redact_iface_none] at h
    exact absurd h (by simp)
  · intro v ih v' h
    rw [redact] at h
    cases hred : redact mode L v with
    | error e => rw [hred] at h; exact absurd h (by simp [bind, Except.bind])
    | ok v₁ =>
        rw [hred] at h
        simp only [bind, Except.bind, Except.ok.injEq] at h
        subst h
        rw [redact, ih v₁ hred]
        simp [bind, Except.bind]
  · intro es ih v' h
    rw [redact] at h
    cases hred : redactEntries mode L es with
    | error e => rw [hred] at h; exact absurd h (by simp [bind, Except.bind])
    | ok es₁ =>
        rw [hred] at h
        simp only [bind, Except.bind, Except.ok.injEq] at h
        subst h
        rw [redact, ih es₁ hred]
        simp [bind, Except.bind]
  · intro s v' h
    rw [redact_str, Except.ok.injEq] at h
    subst h
    rcases eq_or_ne s "" with hs | hs
    · subst hs
      rw [redact_str]
      simp
    · rw [if_pos hs, redact_str, if_pos redactedMessage_ne_empty]
  · intro fs ih v' h
    rw [redact] at h
    cases hred : redactFields mode L fs with
    | error e => rw [hred] at h; exact absurd h (by simp [bind, Except.bind])
    | ok fs₁ =>
        rw [hred] at h
        simp only [bind, Except.bind, Except.ok.injEq] at h
        subst h
        rw [redact, ih fs₁ hred]
        simp [bind, Except.bind]
  · intro v' h
    rw [redact_prim, Except.ok.injEq] at h
    subst h
    exact redact_prim mode L
  · intro vs' h
    rw [redactList, Except.ok.injEq] at h
    subst h
    rw [redactList]
  · intro v vs ihv ihvs vs' h
    rw [redactList] at h
    cases hred : redact mode L v with
    | error e => rw [hred] at h; exact absurd h (by simp [bind, Except.bind])
    | ok v₁ =>
        rw [hred] at h
        cases hreds : redactList mode L vs with
        | error e =>
            rw [hreds] at h
            exact absurd h (by simp [bind, Except.bind])
        | ok vs₁ =>
            rw [hreds] at h
            simp only [bind, Except.bind, Except.ok.injEq] at h
            subst h
            rw [redactList, ihv v₁ hred, ihvs vs₁ hreds]
            simp [bind, Except.bind]
  · intro es' h
    rw [redactEntries, Except.ok.injEq] at h
    subst h
    rw [redactEntries]
  · intro k v rest hskip ihrest es' h
    rw [redactEntries, if_pos hskip] at h
    cases hreds : redactEntries mode L rest with
    | error e => rw [hreds] at h; exact absurd h (by simp [bind, Except.bind])
    | ok rest₁ =>
        rw [hreds] at h
        simp only [bind, Except.bind, Except.ok.injEq] at h
        subst h
        rw [redactEntries, if_pos hskip, ihrest rest₁ hreds]
        simp [bind, Except.bind]
  · intro k v rest hskip ihv ihrest es' h
    rw [redactEntries, if_neg hskip] at h
    cases hred : redact mode L v with
    | error e => rw [hred] at h; exact absurd h (by simp [bind, Except.bind])
    | ok v₁ =>
        rw [hred] at h
        cases hreds : redactEntries mode L rest with
        | error e =>
            rw [hreds] at h
            exact absurd h (by simp [bind, Except.bind])
        | ok rest₁ =>
            rw [hreds] at h
            simp only [bind, Except.bind, Except.ok.injEq] at h
            subst h
            rw [redactEntries, if_neg hskip, ihv v₁ hred]
            simp only [bind, Except.bind]
            rw [ihrest rest₁ hreds]
  · intro fs' h
    rw [redactFields, Except.ok.injEq] at h
    subst h
    rw [redactFields]
  · intro n v rest hskip ihrest fs' h
    rw [redactFields, if_pos hskip] at h
    cases hreds : redactFields mode L rest with
    | error e => rw [hreds] at h; exact absurd h (by simp [bind, Except.bind])
    | ok rest₁ =>
        rw [hreds] at h
        simp only [bind, Except.bind, Except.ok.injEq] at h
        subst h
        rw [redactFields, if_pos hskip, ihrest rest₁ hreds]
        simp [bind, Except.bind]
  · intro n v rest hskip ihv ihrest fs' h
    rw [redactFields, if_neg hskip] at h
    cases hred : redact mode L v with
    | error e => rw [hred] at h; exact absurd h (by simp [bind, Except.bind])
    | ok v₁ =>
        rw [hred] at h
        cases hreds : redactFields mode L rest with
        | error e =>
            rw [hreds] at h
            exact absurd h (by simp [bind, Except.bind])
        | ok rest₁ =>
            rw [hreds] at h
            simp only [bind, Except.bind, Except.ok.injEq] at h
            subst h
            have hkind : isLeafKind v₁ = isLeafKind v :=
              emptyPres_isLeafKind (redact_emptyPres mode L v v₁ hred)
            have hskip' : ¬ (isLeafKind v₁ && skipName mode L n) = true := by
              rw [hkind]
              exact hskip
            rw [redactFields, if_neg hskip', ihv v₁ hred]
            simp only [bind, Except.bind]
            rw [ihrest rest₁ hreds]

/-- C7: redaction is idempotent — applying either public operation a
second time, with the same list, to a result of the first application
returns it unchanged (replacing an already-redacted leaf with the
sentinel is a no-op). -/
theorem c7_idempotent :
    (∀ (v : Val) (L : List String) (v' : Val),
      RedactWithAllowList v L = .ok v' →
        RedactWithAllowList v' L = .ok v') ∧
    (∀ (v : Val) (L : List String) (v' : Val),
      RedactWithDenyList v L = .ok v' →
        RedactWithDenyList v' L = .ok v') :=
  ⟨fun v L v' h => redact_idem .allow L v v' h,
    fun v L v' h => redact_idem .deny L v v' h⟩

/-- C7, witness: redacting the already-redacted bare string is a
no-op. -/
theorem c7_witness :
    RedactWithAllowList (.str "REDACTED") [] = .ok (.str "REDACTED") :=
  c7_idempotent.1 (.str "password") [] (.str "REDACTED") (by
    rw [RedactWithAllowList, reprintThis, redact_str]
    simp [redactedMessage])

/-! ### C1: heap model

The non-mutation / no-shared-storage property is about Go storage, so
the pure value model above cannot express it.  Here the same traversal
is embedded store-passing style: every Go storage node is a cell at an
address, child values are held by address, and `redactH` performs the
writes `redact` performs (`SetString`, `Set`, `SetMapIndex`, plus the
fresh `reflect.New` allocations of the Interface and Map cases).  The
deep-copy stage (`reprint.This`, an external library treated as a black
box) enters through its contract from spec section 4.1: the clone
occupies only fresh addresses, disjoint from and not pointing into the
region of the original. -/

/-- Address of a storage cell in the modelled heap. -/
abbrev Addr := Nat

/-- One Go storage node: same kinds as `Val`, children by address. -/
inductive HCell where
  | str : String → HCell
  | bytes : List Nat → HCell
  | byteArr : List Nat → HCell
  | slice : List Addr → HCell
  | arr : List Addr → HCell
  | ptr : Option Addr → HCell
  | iface : Option Addr → HCell
  | mp : List (MapKey × Addr) → HCell
  | strct : List (String × Addr) → HCell
  | prim : HCell

/-- Child addresses held by a cell. -/
def HCell.children : HCell → List Addr
  | .slice as => as
  | .arr as => as
  | .ptr (some a) => [a]
  | .iface (some a) => [a]
  | .mp es => es.map Prod.snd
  | .strct fs => fs.map Prod.snd
  | _ => []

/-- Leaf classification of a cell, as in the Struct case of `redact`. -/
def isLeafKindH : HCell → Bool
  | .str _ => true
  | .bytes _ => true
  | _ => false

/-- Mutable store plus allocation frontier: addresses `≥ next` are
free. -/
structure HState where
  heap : Addr → Option HCell
  next : Addr

/-- In-place write of one cell (`SetString` / `Set` / `SetMapIndex`). -/
def HState.write (s : HState) (a : Addr) (c : HCell) : HState :=
  ⟨fun b => if b = a then some c else s.heap b, s.next⟩

/-- Fresh allocation (`reflect.New` + `Set` of the element value):
returns the new state and the address of the new cell. -/
def HState.alloc (s : HState) (c : HCell) : HState × Addr :=
  (⟨fun b => if b = s.next then some c else s.heap b, s.next + 1⟩, s.next)

/-- Failure outcomes of the store-passing traversal: the two reflect
panics of the value model, plus the artifacts of the embedding (a fuel
bound for the unbounded heap recursion, and a dangling-address case
that a well-formed heap never reaches). -/
inductive HErr where
  | invalidValue
  | setNotAssignable
  | outOfFuel
  | dangling
deriving DecidableEq, Repr

mutual

/-- Store-passing `redact` from `rere.go`, same dispatch as the value
model: pointers are dereferenced (by fuelled recursion), non-empty
strings and byte slices are overwritten in place, byte arrays panic,
sequences recurse per element, a non-nil interface copies its dynamic
value into a fresh cell, redacts it there and stores the copy back, a
nil interface panics, maps skip matched keys and otherwise redact a
fresh copy of the entry value and point the entry at it, structs consult
the skip check only for string/byte-slice-kind fields and recurse into
field storage in place. -/
def redactH (mode : RedactMode) (L : List String) :
    Nat → HState → Addr → Except HErr HState
  | 0, _, _ => .error .outOfFuel
  | fuel + 1, s, a =>
    match s.heap a with
    | none => .error .dangling
    | some (.ptr none) => .ok s
    | some (.ptr (some b)) => redactH mode L fuel s b
    | some (.bytes bs) =>
        if bs.length ≠ 0 then .ok (s.write a (.bytes redactedBytes))
        else .ok s
    | some (.byteArr bs) =>
        if bs.length ≠ 0 then .error .setNotAssignable else .ok s
    | some (.slice as) => redactHAddrs mode L fuel s as
    | some (.arr as) => redactHAddrs mode L fuel s as
    | some (.iface none) => .error .invalidValue
    | some (.iface (some b)) =>
        match s.heap b with
        | none => .error .dangling
        | some elemCell => do
            let p := s.alloc elemCell
            let s₂ ← redactH mode L fuel p.1 p.2
            .ok (s₂.write a (.iface (some p.2)))
    | some (.mp entries) => do
        let q ← redactHEntries mode L fuel s entries
        .ok (q.1.write a (.mp q.2))
    | some (.str str) =>
        if str ≠ "" then .ok (s.write a (.str redactedMessage)) else .ok s
    | some (.strct fields) => redactHFields mode L fuel s fields
    | some .prim => .ok s

/-- Element loop of the Array/Slice case, threading the store. -/
def redactHAddrs (mode : RedactMode) (L : List String) :
    Nat → HState → List Addr → Except HErr HState
  | _, s, [] => .ok s
  | fuel, s, a :: rest => do
      let s₁ ← redactH mode L fuel s a
      redactHAddrs mode L fuel s₁ rest

/-- Key loop of the Map case: matched keys are skipped whole; other
entry values are copied to a fresh cell, redacted there, and the entry
re-pointed (`SetMapIndex`). -/
def redactHEntries (mode : RedactMode) (L : List String) :
    Nat → HState → List (MapKey × Addr) →
      Except HErr (HState × List (MapKey × Addr))
  | _, s, [] => .ok (s, [])
  | fuel, s, (k, b) :: rest =>
      if skipName mode L k.render then do
        let q ← redactHEntries mode L fuel s rest
        .ok (q.1, (k, b) :: q.2)
      else
        match s.heap b with
        | none => .error .dangling
        | some elemCell => do
            let p := s.alloc elemCell
            let s₂ ← redactH mode L fuel p.1 p.2
            let q ← redactHEntries mode L fuel s₂ rest
            .ok (q.1, (k, p.2) :: q.2)

/-- Field loop of the Struct case: the skip check looks at the kind of
the own storage of the field; non-skipped fields are redacted in place
(`reflect.NewAt` aliases the field storage, so no allocation). -/
def redactHFields (mode : RedactMode) (L : List String) :
    Nat → HState → List (String × Addr) → Except HErr HState
  | _, s, [] => .ok s
  | fuel, s, (n, b) :: rest =>
      if (match s.heap b with
          | some c => isLeafKindH c
          | none => false) && skipName mode L n then
        redactHFields mode L fuel s rest
      else do
        let s₁ ← redactH mode L fuel s b
        redactHFields mode L fuel s₁ rest

end

/-- A cell whose children all lie at or above `n`. -/
def HighCell (n : Nat) (c : HCell) : Prop := ∀ b ∈ c.children, n ≤ b

/-- The region at or above `n` is closed: cells there only point at or
above `n`. -/
def HighClosed (h : Addr → Option HCell) (n : Nat) : Prop :=
  ∀ a c, n ≤ a → h a = some c → HighCell n c

/-- The region below `n` is closed: cells there only point below `n`. -/
def LowClosed (h : Addr → Option HCell) (n : Nat) : Prop :=
  ∀ a c, a < n → h a = some c → ∀ b ∈ c.children, b < n

theorem HighClosed.write {s : HState} {n : Nat} {a : Addr} {c : HCell}
    (h : HighClosed s.heap n) (hc : HighCell n c) :
    HighClosed (s.write a c).heap n := by
  intro a' c' ha' hc'
  simp only [HState.write] at hc'
  split at hc'
  · cases hc'
    exact hc
  · exact h a' c' ha' hc'

theorem HighClosed.alloc {s : HState} {n : Nat} {c : HCell}
    (h : HighClosed s.heap n) (hc : HighCell n c) :
    HighClosed (s.alloc c).1.heap n := by
  intro a' c' ha' hc'
  simp only [HState.alloc] at hc'
  split at hc'
  · cases hc'
    exact hc
  · exact h a' c' ha' hc'

theorem write_frame {s : HState} {n : Nat} {a : Addr} {c : HCell}
    (ha : n ≤ a) : ∀ b, b < n → (s.write a c).heap b = s.heap b := by
  intro b hb
  simp only [HState.write]
  rw [if_neg (show ¬ b = a by omega)]

theorem alloc_frame {s : HState} {n : Nat} {c : HCell}
    (hn : n ≤ s.next) : ∀ b, b < n → (s.alloc c).1.heap b = s.heap b := by
  intro b hb
  simp only [HState.alloc]
  rw [if_neg (show ¬ b = s.next by omega)]

/-- Frame property of the store-passing traversal: run on an address in
a closed high region (with the allocation frontier also high), a
successful pass leaves every low cell untouched, keeps the high region
closed, and only moves the frontier up. -/
theorem redactH_frame (mode : RedactMode) (L : List String) (n : Nat) :
    ∀ (fuel : Nat) (s : HState) (a : Addr) (s' : HState),
      n ≤ s.next → n ≤ a → HighClosed s.heap n →
      redactH mode L fuel s a = .ok s' →
      (∀ b, b < n → s'.heap b = s.heap b) ∧ HighClosed s'.heap n ∧
        s.next ≤ s'.next := by
  refine redactH.induct mode L
    (fun fuel s a => ∀ s', n ≤ s.next → n ≤ a → HighClosed s.heap n →
      redactH mode L fuel s a = .ok s' →
      (∀ b, b < n → s'.heap b = s.heap b) ∧ HighClosed s'.heap n ∧
        s.next ≤ s'.next)
    (fun fuel s fs => ∀ s', n ≤ s.next → (∀ p ∈ fs, n ≤ p.2) →
      HighClosed s.heap n →
      redactHFields mode L fuel s fs = .ok s' →
      (∀ b, b < n → s'.heap b = s.heap b) ∧ HighClosed s'.heap n ∧
        s.next ≤ s'.next)
    (fun fuel s es => ∀ r, n ≤ s.next → (∀ p ∈ es, n ≤ p.2) →
      HighClosed s.heap n →
      redactHEntries mode L fuel s es = .ok r →
      (∀ b, b < n → r.1.heap b = s.heap b) ∧ HighClosed r.1.heap n ∧
        s.next ≤ r.1.next ∧ ∀ p ∈ r.2, n ≤ p.2)
    (fun fuel s as => ∀ s', n ≤ s.next → (∀ a ∈ as, n ≤ a) →
      HighClosed s.heap n →
      redactHAddrs mode L fuel s as = .ok s' →
      (∀ b, b < n → s'.heap b = s.heap b) ∧ HighClosed s'.heap n ∧
        s.next ≤ s'.next)
    ?_ ?_ ?_ ?_ ?_ ?_ ?_ ?_ ?_ ?_ ?_ ?_ ?_ ?_ ?_ ?_ ?_ ?_ ?_ ?_ ?_ ?_ ?_
      ?_ ?_ ?_ ?_
  · intro s a s' _ _ _ hrun
    simp [redactH] at hrun
  · intro fuel s a hheap s' _ _ _ hrun
    rw [redactH] at hrun
    simp [hheap] at hrun
  · intro fuel s a hheap s' h1 h2 h3 hrun
    rw [redactH] at hrun
    simp only [hheap] at hrun
    simp only [Except.ok.injEq] at hrun
    subst hrun
    exact ⟨fun b _ => rfl, h3, le_refl _⟩
  · intro fuel s a b hheap ih s' h1 h2 h3 hrun
    rw [redactH] at hrun
    simp only [hheap] at hrun
    have hb : n ≤ b := (h3 a _ h2 hheap) b (by simp [HCell.children])
    exact ih s' h1 hb h3 hrun
  · intro fuel s a bs hheap hbs s' h1 h2 h3 hrun
    rw [redactH] at hrun
    simp only [hheap, if_pos hbs, Except.ok.injEq] at hrun
    subst hrun
    refine ⟨write_frame h2, h3.write ?_, le_refl _⟩
    intro b hb
    simp [HCell.children] at hb
  · intro fuel s a bs hheap hbs s' h1 h2 h3 hrun
    rw [redactH] at hrun
    simp only [hheap, if_neg hbs, Except.ok.injEq] at hrun
    subst hrun
    exact ⟨fun b _ => rfl, h3, le_refl _⟩
  · intro fuel s a bs hheap hbs s' h1 h2 h3 hrun
    rw [redactH] at hrun
    simp only [hheap, if_pos hbs] at hrun
    exact Except.noConfusion hrun
  · intro fuel s a bs hheap hbs s' h1 h2 h3 hrun
    rw [redactH] at hrun
    simp only [hheap, if_neg hbs, Except.ok.injEq] at hrun
    subst hrun
    exact ⟨fun b _ => rfl, h3, le_refl _⟩
  · intro fuel s a as hheap ih s' h1 h2 h3 hrun
    rw [redactH] at hrun
    simp only [hheap] at hrun
    have has : ∀ x ∈ as, n ≤ x := fun x hx =>
      (h3 a _ h2 hheap) x (by simpa [HCell.children] using hx)
    exact ih s' h1 has h3 hrun
  · intro fuel s a as hheap ih s' h1 h2 h3 hrun
    rw [redactH] at hrun
    simp only [hheap] at hrun
    have has : ∀ x ∈ as, n ≤ x := fun x hx =>
      (h3 a _ h2 hheap) x (by simpa [HCell.children] using hx)
    exact ih s' h1 has h3 hrun
  · intro fuel s a hheap s' _ _ _ hrun
    rw [redactH] at hrun
    simp [hheap] at hrun
  · intro fuel s a b hheap hnone s' _ _ _ hrun
    rw [redactH] at hrun
    simp [hheap, hnone] at hrun
  · intro fuel s a b hheap elemCell helem p ih s' h1 h2 h3 hrun
    rw [redactH] at hrun
    simp only [hheap, helem] at hrun
    have hb : n ≤ b := (h3 a _ h2 hheap) b (by simp [HCell.children])
    have hcellHigh : HighCell n elemCell := h3 b _ hb helem
    have hp1next : n ≤ p.1.next := show n ≤ s.next + 1 by omega
    have hp2 : n ≤ p.2 := show n ≤ s.next from h1
    have hp1closed : HighClosed p.1.heap n := h3.alloc hcellHigh
    cases hred : redactH mode L fuel p.1 p.2 with
    | error e =>
        rw [hred] at hrun
        simp [bind, Except.bind] at hrun
    | ok s₂ =>
        rw [hred] at hrun
        simp only [bind, Except.bind, Except.ok.injEq] at hrun
        subst hrun
        obtain ⟨hf, hc, hnx⟩ := ih s₂ hp1next hp2 hp1closed hred
        have hx : s.next + 1 ≤ s₂.next := hnx
        refine ⟨?_, hc.write ?_, ?_⟩
        · intro b' hb'
          rw [write_frame h2 b' hb', hf b' hb', alloc_frame h1 b' hb']
        · intro x hx'
          simp only [HCell.children, List.mem_singleton] at hx'
          subst hx'
          exact hp2
        · exact le_trans (Nat.le_add_right s.next 1) hx
  · intro fuel s a entries hheap ih s' h1 h2 h3 hrun
    rw [redactH] at hrun
    simp only [hheap] at hrun
    have hes : ∀ x ∈ entries, n ≤ x.2 := fun x hx =>
      (h3 a _ h2 hheap) x.2 (by
        simp only [HCell.children, List.mem_map]
        exact ⟨x, hx, rfl⟩)
    cases hred : redactHEntries mode L fuel s entries with
    | error e =>
        rw [hred] at hrun
        simp [bind, Except.bind] at hrun
    | ok q =>
        rw [hred] at hrun
        simp only [bind, Except.bind, Except.ok.injEq] at hrun
        subst hrun
        obtain ⟨hf, hc, hnx, hhigh⟩ := ih q h1 hes h3 hred
        refine ⟨?_, hc.write ?_, ?_⟩
        · intro b' hb'
          rw [write_frame h2 b' hb', hf b' hb']
        · intro x hx
          simp only [HCell.children, List.mem_map] at hx
          obtain ⟨pq, hpq, rfl⟩ := hx
          exact hhigh pq hpq
        · simpa [HState.write] using hnx
  · intro fuel s a str hheap hstr s' h1 h2 h3 hrun
    rw [redactH] at hrun
    simp only [hheap, if_pos hstr, Except.ok.injEq] at hrun
    subst hrun
    refine ⟨write_frame h2, h3.write ?_, le_refl _⟩
    intro b hb
    simp [HCell.children] at hb
  · intro fuel s a str hheap hstr s' h1 h2 h3 hrun
    rw [redactH] at hrun
    simp only [hheap, if_neg hstr, Except.ok.injEq] at hrun
    subst hrun
    exact ⟨fun b _ => rfl, h3, le_refl _⟩
  · intro fuel s a fields hheap ih s' h1 h2 h3 hrun
    rw [redactH] at hrun
    simp only [hheap] at hrun
    have hfs : ∀ x ∈ fields, n ≤ x.2 := fun x hx =>
      (h3 a _ h2 hheap) x.2 (by
        simp only [HCell.children, List.mem_map]
        exact ⟨x, hx, rfl⟩)
    exact ih s' h1 hfs h3 hrun
  · intro fuel s a hheap s' h1 h2 h3 hrun
    rw [redactH] at hrun
    simp only [hheap, Except.ok.injEq] at hrun
    subst hrun
    exact ⟨fun b _ => rfl, h3, le_refl _⟩
  · intro fuel s s' _ _ _ hrun
    rw [redactHFields] at hrun
    simp only [Except.ok.injEq] at hrun
    subst hrun
    exact ⟨fun b _ => rfl, by assumption, le_refl _⟩
  · intro fuel s fn b rest hskip ih s' h1 hfs h3 hrun
    rw [redactHFields] at hrun
    rw [if_pos hskip] at hrun
    exact ih s' h1 (fun p hp => hfs p (List.mem_cons_of_mem _ hp)) h3 hrun
  · intro fuel s fn b rest hskip ihb ihrest s' h1 hfs h3 hrun
    rw [redactHFields] at hrun
    rw [if_neg hskip] at hrun
    have hb : n ≤ b := hfs (fn, b) (List.mem_cons_self _ _)
    cases hred : redactH mode L fuel s b with
    | error e =>
        rw [hred] at hrun
        simp [bind, Except.bind] at hrun
    | ok s₁ =>
        rw [hred] at hrun
        simp only [bind, Except.bind] at hrun
        obtain ⟨hf₁, hc₁, hnx₁⟩ := ihb s₁ h1 hb h3 hred
        obtain ⟨hf₂, hc₂, hnx₂⟩ := ihrest s₁ s' (le_trans h1 hnx₁)
          (fun p hp => hfs p (List.mem_cons_of_mem _ hp)) hc₁ hrun
        exact ⟨fun b' hb' => (hf₂ b' hb').trans (hf₁ b' hb'), hc₂,
          le_trans hnx₁ hnx₂⟩
  · intro fuel s r _ _ _ hrun
    rw [redactHEntries] at hrun
    simp only [Except.ok.injEq] at hrun
    subst hrun
    exact ⟨fun b _ => rfl, by assumption, le_refl _, by simp⟩
  · intro fuel s k b rest hskip ih r h1 hes h3 hrun
    rw [redactHEntries] at hrun
    rw [if_pos hskip] at hrun
    cases hred : redactHEntries mode L fuel s rest with
    | error e =>
        rw [hred] at hrun
        simp [bind, Except.bind] at hrun
    | ok q =>
        rw [hred] at hrun
        simp only [bind, Except.bind, Except.ok.injEq] at hrun
        subst hrun
        obtain ⟨hf, hc, hnx, hhigh⟩ := ih q h1
          (fun p hp => hes p (List.mem_cons_of_mem _ hp)) h3 hred
        refine ⟨hf, hc, hnx, ?_⟩
        intro p hp
        rcases List.mem_cons.mp hp with hp | hp
        · subst hp
          exact hes (k, b) (List.mem_cons_self _ _)
        · exact hhigh p hp
  · intro fuel s k b rest hskip hnone r _ _ _ hrun
    rw [redactHEntries] at hrun
    rw [if_neg hskip] at hrun
    simp [hnone] at hrun
  · intro fuel s k b rest hskip elemCell helem p ihb ihrest r h1 hes h3 hrun
    rw [redactHEntries] at hrun
    rw [if_neg hskip] at hrun
    simp only [helem] at hrun
    have hb : n ≤ b := hes (k, b) (List.mem_cons_self _ _)
    have hcellHigh : HighCell n elemCell := h3 b _ hb helem
    have hp1next : n ≤ p.1.next := show n ≤ s.next + 1 by omega
    have hp2 : n ≤ p.2 := show n ≤ s.next from h1
    have hp1closed : HighClosed p.1.heap n := h3.alloc hcellHigh
    cases hred : redactH mode L fuel p.1 p.2 with
    | error e =>
        rw [hred] at hrun
        simp [bind, Except.bind] at hrun
    | ok s₂ =>
        rw [hred] at hrun
        simp only [bind, Except.bind] at hrun
        cases hreds : redactHEntries mode L fuel s₂ rest with
        | error e =>
            rw [hreds] at hrun
            simp [bind, Except.bind] at hrun
        | ok q =>
            rw [hreds] at hrun
            simp only [bind, Except.bind, Except.ok.injEq] at hrun
            subst hrun
            obtain ⟨hf₁, hc₁, hnx₁⟩ := ihb s₂ hp1next hp2 hp1closed hred
            have hx : s.next + 1 ≤ s₂.next := hnx₁
            obtain ⟨hf₂, hc₂, hnx₂, hhigh⟩ := ihrest s₂ q
              (le_trans h1 (le_trans (Nat.le_add_right s.next 1) hx))
              (fun x hxmem => hes x (List.mem_cons_of_mem _ hxmem)) hc₁ hreds
            refine ⟨?_, hc₂, ?_, ?_⟩
            · intro b' hb'
              rw [hf₂ b' hb', hf₁ b' hb', alloc_frame h1 b' hb']
            · exact le_trans (Nat.le_add_right s.next 1) (le_trans hx hnx₂)
            · intro x hxm
              rcases List.mem_cons.mp hxm with hxm | hxm
              · subst hxm
                exact hp2
              · exact hhigh x hxm
  · intro fuel s s' _ _ _ hrun
    rw [redactHAddrs] at hrun
    simp only [Except.ok.injEq] at hrun
    subst hrun
    exact ⟨fun b _ => rfl, by assumption, le_refl _⟩
  · intro fuel s a rest ihb ihrest s' h1 has h3 hrun
    rw [redactHAddrs] at hrun
    have ha : n ≤ a := has a (List.mem_cons_self _ _)
    cases hred : redactH mode L fuel s a with
    | error e =>
        rw [hred] at hrun
        simp [bind, Except.bind] at hrun
    | ok s₁ =>
        rw [hred] at hrun
        simp only [bind, Except.bind] at hrun
        obtain ⟨hf₁, hc₁, hnx₁⟩ := ihb s₁ h1 ha h3 hred
        obtain ⟨hf₂, hc₂, hnx₂⟩ := ihrest s₁ s' (le_trans h1 hnx₁)
          (fun x hx => has x (List.mem_cons_of_mem _ hx)) hc₁ hrun
        exact ⟨fun b' hb' => (hf₂ b' hb').trans (hf₁ b' hb'), hc₂,
          le_trans hnx₁ hnx₂⟩

/-- Addresses reachable from a root through cell children. -/
inductive Reach (h : Addr → Option HCell) : Addr → Addr → Prop where
  | refl (a : Addr) : Reach h a a
  | step {a b c : Addr} {cell : HCell} : Reach h a b → h b = some cell →
      c ∈ cell.children → Reach h a c

theorem reach_high {h : Addr → Option HCell} {n a b : Nat}
    (hc : HighClosed h n) (ha : n ≤ a) (hr : Reach h a b) : n ≤ b := by
  induction hr with
  | refl => exact ha
  | step _ hcell hchild ih => exact hc _ _ ih hcell _ hchild

theorem reach_low {h : Addr → Option HCell} {n r b : Nat}
    (hl : LowClosed h n) (hr0 : r < n) (hr : Reach h r b) : b < n := by
  induction hr with
  | refl => exact hr0
  | step _ hcell hchild ih => exact hl _ _ ih hcell _ hchild

/-- Modelled from the spec: the contract of the Deep-Copy Stage (spec
section 4.1), realized by the external collaborator `reprint.This`,
which is not code of this repository and is treated as a black box
(spec section 6).  After the clone, the original graph of the caller
lives entirely below the boundary `n` (root `r`, region closed under
children), while the clone occupies only fresh storage at or above `n`
(root `a`, region closed under children, allocation frontier at or
above `n`): a fully independent clone sharing no mutable storage with
the original. -/
structure CloneContract (s : HState) (n r a : Addr) : Prop where
  low_root : r < n
  low_closed : LowClosed s.heap n
  high_root : n ≤ a
  high_closed : HighClosed s.heap n
  next_high : n ≤ s.next

/-- C1: non-mutation and storage independence.  Under the deep-copy
contract, the traversal stage of `RedactWithAllowList` /
`RedactWithDenyList` (`redactH` in the corresponding mode, the only
mutating stage of either operation) leaves every cell of the original
untouched — the original is structurally equal to its pre-call state —
and every address reachable from the returned root stays at or above
`n`, while every address reachable from the original stays below `n`:
the returned value and the original share no storage, so mutating the
returned value can never affect the original. -/
theorem c1_non_mutation (mode : RedactMode) (L : List String)
    (fuel : Nat) (s : HState) (n r a : Addr) (s' : HState)
    (hclone : CloneContract s n r a)
    (hrun : redactH mode L fuel s a = .ok s') :
    (∀ b, b < n → s'.heap b = s.heap b) ∧
      (∀ b, Reach s'.heap r b → b < n) ∧
      (∀ b, Reach s'.heap a b → n ≤ b) := by
  obtain ⟨hframe, hclosed, _⟩ := redactH_frame mode L n fuel s a s'
    hclone.next_high hclone.high_root hclone.high_closed hrun
  have hlow' : LowClosed s'.heap n := by
    intro x c hx hc b hb
    rw [hframe x hx] at hc
    exact hclone.low_closed x c hx hc b hb
  exact ⟨hframe, fun b hb => reach_low hlow' hclone.low_root hb,
    fun b hb => reach_high hclosed hclone.high_root hb⟩

/-- A two-cell demonstration heap: the original bare string `"password"`
at address 0, its clone at address 1, frontier 2. -/
def cloneDemoState : HState :=
  ⟨fun b => if b = 0 then some (.str "password")
    else if b = 1 then some (.str "password") else none, 2⟩

/-- C1, witness: redacting the clone of a bare string leaves the
original cell untouched and the two graphs disjoint. -/
theorem c1_witness :
    (∀ b, b < 1 →
      (cloneDemoState.write 1 (HCell.str redactedMessage)).heap b =
        cloneDemoState.heap b) ∧
      (∀ b, Reach (cloneDemoState.write 1
        (HCell.str redactedMessage)).heap 0 b → b < 1) ∧
      (∀ b, Reach (cloneDemoState.write 1
        (HCell.str redactedMessage)).heap 1 b → 1 ≤ b) :=
  c1_non_mutation .allow [] 2 cloneDemoState 1 0 1
    (cloneDemoState.write 1 (HCell.str redactedMessage))
    ⟨by decide,
      (by
        intro x c hx hc b hb
        have hx0 : x = 0 := by omega
        subst hx0
        simp only [cloneDemoState, if_pos rfl] at hc
        cases hc
        simp [HCell.children] at hb),
      by decide,
      (by
        intro x c hx hc b hb
        by_cases hx1 : x = 1
        · subst hx1
          simp only [cloneDemoState] at hc
          norm_num at hc
          subst hc
          simp [HCell.children] at hb
        · have : ¬ x = 0 := by omega
          simp only [cloneDemoState, if_neg this, if_neg hx1] at hc
          cases hc),
      by decide⟩
    (by
      rw [redactH]
      simp only [cloneDemoState]
      norm_num
      intro h
      exact absurd h (by decide))

end Rere
